import Mathlib

/-! Verification of the type-collection phase of the compiler
(librustc_typeck/collect.rs): a shallow embedding of its data model and of the
operations the claims are about — enum discriminant assignment, the
request/cycle guard, cache memoization, object-lifetime defaults, bound
sorting, associated-item conversion order, the impl constrained-parameter
check, type-alias bound checking, predicate-cache writes, and type-parameter
defaults — together with theorems settling each claim. -/

namespace Collect

/-! Definitions for enum discriminant assignment (collect.rs:1019-1111). -/

/-- Representation integer type of an enum: signedness and bit width.
Embeds the `attr::IntType` value used by `convert_enum_def`. -/
structure IntType where
  signed : Bool
  bits : Nat
deriving DecidableEq

/-- Smallest value of the representation type. -/
def IntType.minVal (t : IntType) : Int :=
  if t.signed then -(2 ^ (t.bits - 1)) else 0

/-- Wrap an integer into the representation range, two's-complement style. -/
def IntType.wrap (t : IntType) (v : Int) : Int :=
  t.minVal + (v - t.minVal) % (2 ^ t.bits)

/-- Modelled from the spec: `attr::IntType::disr_incr` (the attr module is not
under src/) computes previous + 1 in the representation type's arithmetic and
signals overflow by returning none when the increment wraps. -/
def IntType.disr_incr (t : IntType) (v : Int) : Option Int :=
  if t.wrap (v + 1) = v + 1 then some (v + 1) else none

/-- Modelled from the spec: `attr::IntType::disr_wrap_incr` (the attr module is
not under src/) computes previous + 1 in the representation type's wrapping
arithmetic, yielding the initial discriminant value 0 when there is no
previous discriminant. -/
def IntType.disr_wrap_incr (t : IntType) : Option Int → Int
  | none => 0
  | some v => t.wrap (v + 1)

/-- Diagnostics emitted while assigning enum discriminants: E0370 names the
previous value and the variant; E0079/E0080 report a failed constant
evaluation of an explicit discriminant expression. -/
inductive EnumDiag
  | overflow (prevVal : Int) (variantName : Nat)
  | evalError (variantName : Nat)
deriving DecidableEq

/-- An enum variant: its name and, when present, its explicit discriminant
expression, abstracted by the outcome of constant evaluation (`some r` is an
explicit expression whose evaluation yields `r`; a failed evaluation is
`some none`). -/
structure Variant where
  name : Nat
  disr_expr : Option (Option Int)
deriving DecidableEq

/-- Embeds `evaluate_disr_expr` (collect.rs:1024-1055): constant evaluation is
abstracted by the expression's recorded outcome; a failed evaluation is
reported and yields none. -/
def evaluate_disr_expr (variantName : Nat) (res : Option Int) :
    Option Int × List EnumDiag :=
  match res with
  | some val => (some val, [])
  | none => (none, [EnumDiag.evalError variantName])

/-- Embeds `next_disr` (collect.rs:1072-1086): increment the previous
discriminant, reporting overflow when the checked increment fails; the first
variant receives the initial discriminant value 0. -/
def next_disr (t : IntType) (v : Variant) (prev : Option Int) :
    Option Int × List EnumDiag :=
  match prev with
  | some p =>
    match t.disr_incr p with
    | some n => (some n, [])
    | none => (none, [EnumDiag.overflow p v.name])
  | none => (some 0, [])

/-- Embeds the discriminant-assignment loop of `convert_enum_def`
(collect.rs:1099-1109), threading the previous discriminant left to right and
falling back to the wrapping increment when no value was produced. -/
def convert_enum_def_go (t : IntType) :
    List Variant → Option Int → List Int × List EnumDiag
  | [], _ => ([], [])
  | v :: vs, prev =>
    let step :=
      match v.disr_expr with
      | some e => evaluate_disr_expr v.name e
      | none => next_disr t v prev
    let disr := step.1.getD (t.disr_wrap_incr prev)
    let rest := convert_enum_def_go t vs (some disr)
    (disr :: rest.1, step.2 ++ rest.2)

/-- Embeds `convert_enum_def` (collect.rs:1019-1111) restricted to discriminant
assignment: the list of assigned discriminants together with the diagnostics,
starting with no previous discriminant. -/
def convert_enum_def (t : IntType) (variants : List Variant) :
    List Int × List EnumDiag :=
  convert_enum_def_go t variants none

/-- The i8 representation type. -/
def i8 : IntType := ⟨true, 8⟩

/-! Definitions for the request/cycle guard (collect.rs:109-185). -/

/-- Requests checked by the cycle guard (collect.rs:134-139). -/
inductive AstConvRequest
  | GetItemTypeScheme (id : Nat)
  | GetTraitDef (id : Nat)
  | EnsureSuperPredicates (id : Nat)
  | GetTypeParameterBounds (id : Nat)
deriving DecidableEq

/-- State threaded through the guard: the shared request stack (last element is
the top) and the diagnostics sink, each cycle diagnostic recording the chain of
requests reported by `report_cycle` (collect.rs:187-263). -/
structure GuardState where
  stack : List AstConvRequest
  cycleDiags : List (List AstConvRequest)
deriving DecidableEq

/-- Index of the occurrence of `r` nearest the top of the stack, as found by
the reversed enumerate-scan in `cycle_check` (collect.rs:170). -/
def lastIdxOf (r : AstConvRequest) : List AstConvRequest → Option Nat
  | [] => none
  | x :: xs =>
    match lastIdxOf r xs with
    | some i => some (i + 1)
    | none => if x = r then some 0 else none

/-- Embeds `CrateCtxt::cycle_check` (collect.rs:161-185): scan the stack for
the request; on a hit report the chain from that occurrence to the top and
fail without running the body; otherwise push the request, run the body, and
pop on the way out whether the body succeeded or failed. -/
def cycle_check {R : Type} (st : GuardState) (request : AstConvRequest)
    (code : GuardState → Except Unit R × GuardState) :
    Except Unit R × GuardState :=
  match lastIdxOf request st.stack with
  | some i =>
    (Except.error (), { st with cycleDiags := st.cycleDiags ++ [st.stack.drop i] })
  | none =>
    let pushed : GuardState := { st with stack := st.stack ++ [request] }
    let res := code pushed
    (res.1, { res.2 with stack := res.2.stack.dropLast })

/-! Definitions for memoized requests (collect.rs:1202-1252, 1409-1421). -/

/-- Lookup in an association list keyed by declaration id. -/
def lookupAssoc {β : Type} (k : Nat) : List (Nat × β) → Option β
  | [] => none
  | e :: rest => if e.1 = k then some e.2 else lookupAssoc k rest

/-- State of a memoized cache: the stored entries plus an instrumentation
counter recording how many times the underlying computation ran. -/
structure MemoState (β : Type) where
  cache : List (Nat × β)
  computeCount : Nat

/-- Modelled from the spec: `MemoizationMap::memoize` (util::common, not under
src/) returns the cached value when one is present and otherwise runs the
computation once and stores its result. -/
def memoize {β : Type} (st : MemoState β) (key : Nat) (compute : Unit → β) :
    β × MemoState β :=
  match lookupAssoc key st.cache with
  | some v => (v, st)
  | none =>
    let v := compute ()
    (v, ⟨st.cache ++ [(key, v)], st.computeCount + 1⟩)

/-- Embeds `type_scheme_of_item` (collect.rs:1409-1421): memoize the computed
type scheme in the tcache under the item's def id. -/
def type_scheme_of_item {β : Type} (st : MemoState β) (item_def_id : Nat)
    (compute_type_scheme : Unit → β) : β × MemoState β :=
  memoize st item_def_id compute_type_scheme

/-- Embeds `trait_def_of_item` (collect.rs:1202-1252): return the interned
trait definition when the trait_defs cache already holds one for this def id,
otherwise build it and intern it (`intern_trait_def` is not under src/ and is
modelled from the spec as inserting into the cache). -/
def trait_def_of_item {β : Type} (st : MemoState β) (def_id : Nat)
    (build_trait_def : Unit → β) : β × MemoState β :=
  match lookupAssoc def_id st.cache with
  | some d => (d, st)
  | none =>
    let td := build_trait_def ()
    (td, ⟨st.cache ++ [(def_id, td)], st.computeCount + 1⟩)

/-! Definitions for surface bounds, shared by the object-lifetime-default
computation, the bound compiler and the type-alias check. -/

/-- A trait reference appearing in a bound: the id of the trait declaration it
is bound to, and a token standing for its substitutions, so two references to
the same trait with different arguments are distinct values. -/
structure PolyTraitRef where
  def_id : Nat
  substs : Nat
deriving DecidableEq

/-- A surface bound on a type parameter (hir::TyParamBound): a trait bound with
its maybe-modifier (the ?-relaxation), or a region/lifetime bound. -/
inductive TyParamBound
  | traitB (tr : PolyTraitRef) (maybe : Bool)
  | regionB (lifetime : Nat)
deriving DecidableEq

/-- A where-clause bound predicate (hir::WhereBoundPredicate): its
higher-ranked binder lifetimes, the bounded type — abstracted as the
type-parameter node it resolves to, if any, exactly what `is_param`
(collect.rs:504-525) tests — and the bounds. -/
structure WhereBoundPredicate where
  bound_lifetimes : List Nat
  bounded_ty_param : Option Nat
  bounds : List TyParamBound
deriving DecidableEq

/-- A where-clause predicate (hir::WherePredicate). -/
inductive WherePredicate
  | boundPred (bp : WhereBoundPredicate)
  | regionPred (lifetime : Nat) (bounds : List Nat)
  | eqPred
deriving DecidableEq

/-- The object-lifetime default computed for a type parameter
(ty::ObjectLifetimeDefault). -/
inductive ObjectLifetimeDefault
  | Ambiguous
  | BaseDefault
  | Specific (region : Nat)
deriving DecidableEq

/-- Embeds `from_bounds` (collect.rs:1957-1971): keep only the region bounds
of a bound list. -/
def old_from_bounds (bounds : List TyParamBound) : List Nat :=
  bounds.filterMap fun b =>
    match b with
    | .traitB _ _ => none
    | .regionB lt => some lt

/-- Embeds `from_predicates` (collect.rs:1973-1997): the region bounds of
every where-clause bound predicate whose binder-lifetime list is empty and
whose bounded type is this parameter. -/
def old_from_predicates (param_id : Nat) (preds : List WherePredicate) :
    List Nat :=
  preds.flatMap fun p =>
    match p with
    | .boundPred data =>
      if data.bound_lifetimes.isEmpty ∧ data.bounded_ty_param = some param_id
      then old_from_bounds data.bounds
      else []
    | _ => []

/-- Embeds `compute_object_lifetime_default` (collect.rs:1937-1955): collect
the distinct lifetime bounds from the inline bounds and the where clause; more
than one is Ambiguous, none is BaseDefault, exactly one is Specific. -/
def compute_object_lifetime_default (param_id : Nat)
    (param_bounds : List TyParamBound)
    (where_predicates : List WherePredicate) : ObjectLifetimeDefault :=
  let all_bounds :=
    (old_from_bounds param_bounds ++
      old_from_predicates param_id where_predicates).dedup
  if all_bounds.length > 1 then ObjectLifetimeDefault.Ambiguous
  else
    match all_bounds with
    | [] => ObjectLifetimeDefault.BaseDefault
    | r :: _ => ObjectLifetimeDefault.Specific r

/-- The lifetime bounds collected exactly as claim C4 words it: from the
inline bounds and from every where-clause entry bounding this parameter, with
no condition on the entry's higher-ranked binder lifetimes. -/
def claim_collected_lifetimes (param_id : Nat)
    (param_bounds : List TyParamBound)
    (where_predicates : List WherePredicate) : List Nat :=
  old_from_bounds param_bounds ++
    (where_predicates.flatMap fun p =>
      match p with
      | .boundPred data =>
        if data.bounded_ty_param = some param_id then
          old_from_bounds data.bounds
        else []
      | _ => [])

/-- The lifetime bounds collected as the amended claim C4 words it: from the
inline bounds and from every where-clause entry that bounds this parameter and
carries no higher-ranked binder lifetimes. -/
def amended_collected_lifetimes (param_id : Nat)
    (param_bounds : List TyParamBound)
    (where_predicates : List WherePredicate) : List Nat :=
  old_from_bounds param_bounds ++
    (where_predicates.flatMap fun p =>
      match p with
      | .boundPred data =>
        if data.bound_lifetimes = [] ∧ data.bounded_ty_param = some param_id
        then old_from_bounds data.bounds
        else []
      | _ => [])

/-! Definitions for the bound compiler's trait-bound sorting
(collect.rs:2005-2028). -/

/-- Stable insertion by def id: the element is placed before the first
existing element whose key is not smaller, so elements with equal keys keep
their original relative order. -/
def insertByDefId (x : PolyTraitRef) : List PolyTraitRef → List PolyTraitRef
  | [] => [x]
  | y :: ys =>
    if y.def_id < x.def_id then y :: insertByDefId x ys else x :: y :: ys

/-- The stable sort of the collected trait bounds by the bound trait's def id,
embedding the sort_by call of `compute_bounds` (collect.rs:2025); the sort_by
of the source is a stable sort, and a stable sort by a key is unique, so this
insertion sort computes the same list. -/
def sortByDefId : List PolyTraitRef → List PolyTraitRef
  | [] => []
  | x :: xs => insertByDefId x (sortByDefId xs)

/-- Result of the bound compiler (astconv::Bounds), restricted to the parts
the claims mention: region bounds and trait bounds; builtin and projection
bounds are dropped in this embedding. -/
structure Bounds where
  region_bounds : List Nat
  trait_bounds : List PolyTraitRef
deriving DecidableEq

/-- Embeds `conv_param_bounds` (collect.rs:2073-2107) together with the
partitioning of `astconv::partition_bounds`: split the surface bound list into
trait bounds (dropping the ?-relaxed ones) and region bounds, in source
order. -/
def conv_param_bounds (ast_bounds : List TyParamBound) : Bounds where
  region_bounds := ast_bounds.filterMap fun b =>
    match b with
    | .regionB lt => some lt
    | _ => none
  trait_bounds := ast_bounds.filterMap fun b =>
    match b with
    | .traitB tr false => some tr
    | _ => none

/-- Embeds `compute_bounds` (collect.rs:2005-2028): convert the bounds, then
sort the trait bounds by the bound trait's declaration id. -/
def compute_bounds (ast_bounds : List TyParamBound) : Bounds :=
  let bounds := conv_param_bounds ast_bounds
  { bounds with trait_bounds := sortByDefId bounds.trait_bounds }

/-! Definitions for the associated-item conversion order
(collect.rs:743-800 and 817-867). -/

/-- A trait or impl associated item, by kind and name. -/
inductive AssocItem
  | constItem (name : Nat)
  | typeItem (name : Nat)
  | methodItem (name : Nat)
deriving DecidableEq

/-- One conversion step performed by the ItemTrait or ItemImpl arm of
`convert_item`. -/
inductive ConvEvent
  | convConst (name : Nat)
  | convType (name : Nat)
  | convMethod (name : Nat)
deriving DecidableEq

/-- Embeds the associated-item processing of the ItemTrait arm
(collect.rs:817-867) and the ItemImpl arm (collect.rs:743-800) of
`convert_item` as the trace of conversion events: one pass converting every
associated constant, then a pass converting every associated type, then a
pass converting every method. -/
def convert_assoc_items (items : List AssocItem) : List ConvEvent :=
  (items.filterMap fun i =>
    match i with
    | .constItem n => some (ConvEvent.convConst n)
    | _ => none) ++
  (items.filterMap fun i =>
    match i with
    | .typeItem n => some (ConvEvent.convType n)
    | _ => none) ++
  (items.filterMap fun i =>
    match i with
    | .methodItem n => some (ConvEvent.convMethod n)
    | _ => none)

/-- The phase of a conversion event: constants are phase 0, types phase 1,
methods phase 2. -/
def ConvEvent.kindRank : ConvEvent → Nat
  | .convConst _ => 0
  | .convType _ => 1
  | .convMethod _ => 2

/-! Definitions for the impl constrained-parameter check
(collect.rs:2176-2285). -/

/-- A generic parameter of an impl, identified by its index in its space
(ctp::Parameter; the constrained_type_params module is not under src/). -/
inductive CtpParameter
  | typeP (idx : Nat)
  | regionP (idx : Nat)
deriving DecidableEq

/-- Modelled from the spec: a type is abstracted by the generic parameters
occurring in it, split into constraining occurrences and occurrences inside
projections, which do not constrain. -/
structure PTy where
  constraining : List CtpParameter
  inProjections : List CtpParameter
deriving DecidableEq

/-- Modelled from the spec: `ctp::parameters_for_type` (not under src/)
returns the constraining parameter occurrences, plus the projection-position
ones when the flag asks for every occurrence. -/
def parameters_for_type (t : PTy) (includeNonconstraining : Bool) :
    List CtpParameter :=
  t.constraining ++ (if includeNonconstraining then t.inProjections else [])

/-- Modelled from the spec: a projection predicate, abstracted by the
parameters of its projected trait reference (inputs) and the parameters of
the equated type (outputs); it constrains its outputs once all its inputs are
constrained, and only projection predicates propagate constraint. -/
structure ProjectionPred where
  inputs : List CtpParameter
  outputs : List CtpParameter
deriving DecidableEq

/-- One round of the fixed point: add the outputs of every predicate whose
inputs are all already in the set. -/
def ctpStep (preds : List ProjectionPred) (s : List CtpParameter) :
    List CtpParameter :=
  preds.foldl
    (fun acc p =>
      if p.inputs.all (fun q => acc.contains q) then
        acc ++ p.outputs.filter (fun q => !acc.contains q)
      else acc) s

/-- Iterate a function n times. -/
def iterateN {α : Type} (f : α → α) : Nat → α → α
  | 0, a => a
  | n + 1, a => iterateN f n (f a)

/-- Modelled from the spec: the fixed-point closure of the constrained set
over the predicates (`ctp::setup_constraining_predicates` and
`ctp::identify_constrained_type_params`, not under src/); one round per
predicate reaches the fixed point, since every productive round fires at
least one predicate for good. -/
def constrainedClosure (preds : List ProjectionPred)
    (init : List CtpParameter) : List CtpParameter :=
  iterateN (ctpStep preds) preds.length init

/-- The data of an impl that the constrained-parameter checks inspect: the
self type, the implemented-trait reference if any, the predicates, the
declared type and lifetime parameters by name, and the resolved values of the
impl's associated types. -/
structure ImplData where
  selfTy : PTy
  traitRef : Option PTy
  implPredicates : List ProjectionPred
  ty_params : List Nat
  lifetimes : List Nat
  assocTypeValues : List PTy
deriving DecidableEq

/-- An E0207 diagnostic from `report_unused_parameter`
(collect.rs:2276-2285), recording the kind, index and name of the parameter
that is not constrained by the impl trait, self type, or predicates. -/
inductive CtpDiag
  | unconstrainedType (idx : Nat) (name : Nat)
  | unconstrainedLifetime (idx : Nat) (name : Nat)
deriving DecidableEq

/-- The input parameters: those reachable from the self type and the
implemented-trait reference (collect.rs:2190-2194 and 2221-2225). -/
def implInputParameters (d : ImplData) : List CtpParameter :=
  parameters_for_type d.selfTy false ++
    (match d.traitRef with
     | some tr => parameters_for_type tr false
     | none => [])

/-- The reporting loop of `enforce_impl_params_are_constrained`
(collect.rs:2201-2208): enumerate the declared type parameters and report
each one missing from the constrained set. -/
def reportUnconstrainedTypes (input : List CtpParameter) :
    Nat → List Nat → List CtpDiag
  | _, [] => []
  | i, name :: rest =>
    (if input.contains (CtpParameter.typeP i) then []
     else [CtpDiag.unconstrainedType i name]) ++
      reportUnconstrainedTypes input (i + 1) rest

/-- Embeds `enforce_impl_params_are_constrained` (collect.rs:2176-2209). -/
def enforce_impl_params_are_constrained (d : ImplData) : List CtpDiag :=
  reportUnconstrainedTypes
    (constrainedClosure d.implPredicates (implInputParameters d)) 0 d.ty_params

/-- The lifetimes appearing inside some associated type's resolved value
(collect.rs:2229-2241): every parameter occurrence is scanned, and the region
ones are kept. -/
def lifetimesInAssocTypes (d : ImplData) : List CtpParameter :=
  d.assocTypeValues.flatMap fun t =>
    (parameters_for_type t true).filter fun p =>
      match p with
      | CtpParameter.regionP _ => true
      | _ => false

/-- The reporting loop of `enforce_impl_lifetimes_are_constrained`
(collect.rs:2243-2254): a declared lifetime is reported when it occurs in an
associated type's value and is not constrained. -/
def reportUnconstrainedLifetimes (assocLts input : List CtpParameter) :
    Nat → List Nat → List CtpDiag
  | _, [] => []
  | i, name :: rest =>
    (if assocLts.contains (CtpParameter.regionP i) &&
        !(input.contains (CtpParameter.regionP i)) then
       [CtpDiag.unconstrainedLifetime i name]
     else []) ++
      reportUnconstrainedLifetimes assocLts input (i + 1) rest

/-- Embeds `enforce_impl_lifetimes_are_constrained` (collect.rs:2211-2274). -/
def enforce_impl_lifetimes_are_constrained (d : ImplData) : List CtpDiag :=
  reportUnconstrainedLifetimes (lifetimesInAssocTypes d)
    (constrainedClosure d.implPredicates (implInputParameters d)) 0 d.lifetimes

/-! Definitions for the type-alias bound check (collect.rs:639-666, 896-900)
and shared diagnostics. -/

/-- Severity of a reported diagnostic: span_warn emits a warning, span_err an
error. -/
inductive Severity
  | warningSev
  | errorSev
deriving DecidableEq

/-- A diagnostic with its severity and numeric error code. -/
structure Diagnostic where
  sev : Severity
  code : Nat
deriving DecidableEq

/-- Embeds `ensure_no_ty_param_bounds` (collect.rs:639-666): scan every bound
of every declared type parameter, setting a flag on any trait bound; when the
flag is set, emit one E0122 warning (the source deliberately warns — the
bounds are "not (yet) enforced" — instead of erroring). -/
def ensure_no_ty_param_bounds (ty_param_bounds : List (List TyParamBound)) :
    List Diagnostic :=
  let warn := ty_param_bounds.any fun bounds =>
    bounds.any fun b =>
      match b with
      | TyParamBound.traitB _ _ => true
      | TyParamBound.regionB _ => false
  if warn then [⟨Severity.warningSev, 122⟩] else []

/-- A type alias item (the ItemTy arm): the bounds of each declared type
parameter and the underlying type, abstracted as a token whose `to_ty`
conversion is the identity. -/
structure TypeAliasItem where
  paramBounds : List (List TyParamBound)
  underlying : Nat
deriving DecidableEq

/-- Embeds the ItemTy arm of `convert_item` (collect.rs:896-900): check the
parameter bounds, then convert the underlying type into the alias's scheme;
the result is the diagnostics and the scheme's type. -/
def convert_alias_item (it : TypeAliasItem) : List Diagnostic × Nat :=
  (ensure_no_ty_param_bounds it.paramBounds, it.underlying)

/-! Definitions for the predicate-cache writes (collect.rs:561-573,
1351-1352, 1513-1515, 1593-1595). -/

/-- The predicate-cache insert with HashMap semantics: return the previous
value under the key and the map with the binding replaced. -/
def predInsert (m : List (Nat × Nat)) (k v : Nat) :
    Option Nat × List (Nat × Nat) :=
  (lookupAssoc k m, (m.filter fun e => e.1 != k) ++ [(k, v)])

/-- Embeds the predicate write of `convert_typed_item` (collect.rs:1513-1515),
`convert_foreign_item` (collect.rs:1593-1595) and `convert_trait_predicates`
(collect.rs:1351-1352): insert, then assert that the previous entry was
absent; a violated assertion is a fatal internal error, modelled as none. -/
def insertPredicatesAsserting (m : List (Nat × Nat)) (k v : Nat) :
    Option (List (Nat × Nat)) :=
  let r := predInsert m k v
  match r.1 with
  | some _ => none
  | none => some r.2

/-- Embeds the predicate write of `convert_method` (collect.rs:565) — and
likewise of `convert_field`, `convert_associated_const`,
`convert_variant_ctor` and the ItemImpl arm — a plain insert with no
assertion on the previous entry. -/
def insertPredicatesPlain (m : List (Nat × Nat)) (k v : Nat) :
    List (Nat × Nat) :=
  (predInsert m k v).2

/-! Definitions for type-parameter defaults (collect.rs:1858-1929). -/

/-- A converted type (middle::ty), restricted to what
`convert_default_type_parameter` inspects: type parameters carrying their
space and index, the error type, opaque base types, and applications with a
list of argument types. -/
inductive LTy
  | tyParam (space : Nat) (idx : Nat)
  | errTy
  | base (n : Nat)
  | app (head : Nat) (args : List LTy)

mutual
/-- Embeds `Ty::walk`: the type followed by every type nested inside it. -/
def LTy.walk : LTy → List LTy
  | .tyParam s i => [.tyParam s i]
  | .errTy => [.errTy]
  | .base n => [.base n]
  | .app h args => .app h args :: walkArgs args

/-- The walks of a list of argument types, concatenated in order. -/
def walkArgs : List LTy → List LTy
  | [] => []
  | t :: ts => t.walk ++ walkArgs ts
end

/-- Embeds `convert_default_type_parameter` (collect.rs:1858-1879): walk the
converted default; at the first type parameter of the same space whose index
is at or after this parameter's own, report E0128 and produce the error type;
otherwise produce the converted written type. -/
def convert_default_type_parameter (ty : LTy) (space : Nat) (index : Nat) :
    LTy × List Diagnostic :=
  match ty.walk.find? (fun l =>
    match l with
    | LTy.tyParam s i => s == space && decide (index ≤ i)
    | _ => false) with
  | some _ => (LTy.errTy, [⟨Severity.errorSev, 128⟩])
  | none => (ty, [])

/-- Embeds the default-recording step of `get_or_create_type_parameter_def`
(collect.rs:1895-1897): the recorded default of a parameter is the result of
converting its written default, when one is declared. -/
def type_param_default (written : Option LTy) (space index : Nat) :
    Option LTy :=
  written.map fun d => (convert_default_type_parameter d space index).1

/-- The type mentions a parameter of the given space with index at or after
the given index — a forward or self reference, stated structurally on the
syntax tree of the type. -/
inductive MentionsForward (space index : Nat) : LTy → Prop
  | here (i : Nat) : index ≤ i → MentionsForward space index (LTy.tyParam space i)
  | inArg (h : Nat) (args : List LTy) (t : LTy) :
      t ∈ args → MentionsForward space index t →
      MentionsForward space index (LTy.app h args)

/-! Theorems. Supporting lemmas come first, then one theorem per claim with
its witness or counterexample. -/

/-- C1: discriminants are assigned by a left-to-right pass holding the
previous discriminant: an explicit discriminant takes its evaluated constant;
the first variant without an explicit value takes the initial value 0; every
later variant without an explicit value takes previous + 1 in the
representation type's wrapping arithmetic, with an overflow diagnostic naming
the previous value and the variant exactly when the increment wraps, the
wrapped value still being used; in particular an i8 enum with variants
[A, B=120, C, D] yields [0, 120, 121, 122] with no diagnostic, and a variant
following an i8 variant valued 127 wraps to -128 with an overflow report. -/
theorem c1_discriminant_assignment :
    (∀ (t : IntType) (v : Variant) (vs : List Variant) (prev : Option Int),
      convert_enum_def_go t (v :: vs) prev =
        (let d : Int :=
          match v.disr_expr, prev with
          | some (some c), _ => c
          | some none, _ => t.disr_wrap_incr prev
          | none, none => 0
          | none, some p => t.wrap (p + 1)
        let ds : List EnumDiag :=
          match v.disr_expr, prev with
          | some (some _), _ => []
          | some none, _ => [EnumDiag.evalError v.name]
          | none, none => []
          | none, some p =>
            if t.wrap (p + 1) = p + 1 then [] else [EnumDiag.overflow p v.name]
        (d :: (convert_enum_def_go t vs (some d)).1,
          ds ++ (convert_enum_def_go t vs (some d)).2))) ∧
    convert_enum_def i8
        [⟨0, none⟩, ⟨1, some (some 120)⟩, ⟨2, none⟩, ⟨3, none⟩] =
      ([0, 120, 121, 122], []) ∧
    convert_enum_def i8 [⟨0, some (some 127)⟩, ⟨1, none⟩] =
      ([127, -128], [EnumDiag.overflow 127 1]) := by
  refine ⟨?_, by decide, by decide⟩
  intro t v vs prev
  cases hv : v.disr_expr with
  | none =>
    cases prev with
    | none =>
      simp [convert_enum_def_go, next_disr, hv, IntType.disr_wrap_incr]
    | some p =>
      by_cases hw : t.wrap (p + 1) = p + 1
      · simp [convert_enum_def_go, next_disr, IntType.disr_incr, hv, hw,
          IntType.disr_wrap_incr]
      · simp [convert_enum_def_go, next_disr, IntType.disr_incr, hv, hw,
          IntType.disr_wrap_incr]
  | some e =>
    cases e with
    | none =>
      cases prev <;>
        simp [convert_enum_def_go, evaluate_disr_expr, hv, IntType.disr_wrap_incr]
    | some c =>
      cases prev <;>
        simp [convert_enum_def_go, evaluate_disr_expr, hv]

/-- A lastIdxOf miss is exactly the absence of the request from the stack. -/
theorem lastIdxOf_eq_none (r : AstConvRequest) (l : List AstConvRequest) :
    lastIdxOf r l = none ↔ r ∉ l := by
  induction l with
  | nil => simp [lastIdxOf]
  | cons x xs ih =>
    simp only [lastIdxOf, List.mem_cons]
    cases h : lastIdxOf r xs with
    | some i => simp [← ih, h]
    | none =>
      by_cases hx : x = r
      · simp [hx]
      · have hrx : ¬r = x := fun hr => hx (Eq.symm hr)
        simp [hx, hrx, ← ih, h]

/-- A lastIdxOf hit points at an occurrence of the request. -/
theorem lastIdxOf_get (r : AstConvRequest) (l : List AstConvRequest) (i : Nat)
    (h : lastIdxOf r l = some i) : l[i]? = some r := by
  induction l generalizing i with
  | nil => simp [lastIdxOf] at h
  | cons x xs ih =>
    simp only [lastIdxOf] at h
    cases h2 : lastIdxOf r xs with
    | some j =>
      rw [h2] at h
      cases h
      simpa using ih j h2
    | none =>
      rw [h2] at h
      by_cases hx : x = r
      · simp [hx] at h
        subst h
        simp [hx]
      · simp [hx] at h

/-- C2: when the request equals one already on the stack, the guard reports a
single cycle diagnostic enumerating the requests from that occurrence to the
top of the stack, returns the recoverable error marker without running the
body, and leaves the stack unchanged; otherwise it pushes the request, runs
the body, and pops the request again, so for a body that restores the stack
the stack after the call equals the stack before it, and the body's result is
propagated. -/
theorem c2_cycle_guard {R : Type} (st : GuardState) (request : AstConvRequest)
    (code : GuardState → Except Unit R × GuardState) :
    (∀ i, lastIdxOf request st.stack = some i →
      cycle_check st request code =
        (Except.error (), ⟨st.stack, st.cycleDiags ++ [st.stack.drop i]⟩) ∧
      (st.stack.drop i).head? = some request) ∧
    (request ∉ st.stack →
      ((code ⟨st.stack ++ [request], st.cycleDiags⟩).2.stack =
          st.stack ++ [request] →
        (cycle_check st request code).2.stack = st.stack) ∧
      (cycle_check st request code).1 =
        (code ⟨st.stack ++ [request], st.cycleDiags⟩).1) := by
  constructor
  · intro i h
    constructor
    · simp [cycle_check, h]
    · rw [List.head?_drop]
      exact lastIdxOf_get request st.stack i h
  · intro hmem
    have hnone : lastIdxOf request st.stack = none :=
      (lastIdxOf_eq_none request st.stack).mpr hmem
    constructor
    · intro hpres
      simp only [cycle_check, hnone]
      rw [hpres]
      simp
    · simp only [cycle_check, hnone]

/-- Witness for C2: a concrete cycle hit reports the chain and keeps the
stack; a concrete miss restores the stack. -/
theorem c2_cycle_guard_witness :
    (cycle_check (R := Nat) ⟨[AstConvRequest.GetTraitDef 0], []⟩
        (AstConvRequest.GetTraitDef 0) (fun s => (Except.ok 5, s)) =
      (Except.error (),
        ⟨[AstConvRequest.GetTraitDef 0], [[AstConvRequest.GetTraitDef 0]]⟩)) ∧
    ((cycle_check (R := Nat) ⟨[], []⟩ (AstConvRequest.GetTraitDef 0)
        (fun s => (Except.ok 5, s))).2.stack = []) := by
  constructor
  · exact ((c2_cycle_guard ⟨[AstConvRequest.GetTraitDef 0], []⟩
      (AstConvRequest.GetTraitDef 0) (fun s => (Except.ok 5, s))).1 0
      (by decide)).1
  · exact ((c2_cycle_guard ⟨[], []⟩ (AstConvRequest.GetTraitDef 0)
      (fun s => (Except.ok 5, s))).2 (by decide)).1 rfl

/-- Appending a fresh binding makes it visible to lookup. -/
theorem lookupAssoc_append_self {β : Type} (k : Nat) (v : β)
    (l : List (Nat × β)) (h : lookupAssoc k l = none) :
    lookupAssoc k (l ++ [(k, v)]) = some v := by
  induction l with
  | nil => simp [lookupAssoc]
  | cons e rest ih =>
    simp only [lookupAssoc] at h ⊢
    by_cases he : e.1 = k
    · simp [he] at h
    · simp only [he, if_false] at h ⊢
      exact ih h

/-- C3: get-type-scheme and get-interface-definition are memoized: on a cold
cache the first request runs the computation, bumps the instrumentation
counter once and stores the result, and a repeated request returns the
identical stored value with the whole state — counter included — unchanged,
for both the type-scheme cache and the trait-definition cache. -/
theorem c3_memoized_requests {β : Type} (st : MemoState β) (k : Nat)
    (f : Unit → β) :
    (lookupAssoc k st.cache = none →
      (type_scheme_of_item st k f).1 = f () ∧
      (type_scheme_of_item st k f).2.computeCount = st.computeCount + 1 ∧
      lookupAssoc k (type_scheme_of_item st k f).2.cache = some (f ())) ∧
    (type_scheme_of_item (type_scheme_of_item st k f).2 k f =
      ((type_scheme_of_item st k f).1, (type_scheme_of_item st k f).2)) ∧
    (trait_def_of_item (trait_def_of_item st k f).2 k f =
      ((trait_def_of_item st k f).1, (trait_def_of_item st k f).2)) := by
  refine ⟨?_, ?_, ?_⟩
  · intro h
    simp [type_scheme_of_item, memoize, h, lookupAssoc_append_self]
  · cases h : lookupAssoc k st.cache with
    | some v =>
      simp [type_scheme_of_item, memoize, h]
    | none =>
      have h2 : lookupAssoc k (st.cache ++ [(k, f ())]) = some (f ()) :=
        lookupAssoc_append_self k (f ()) st.cache h
      simp [type_scheme_of_item, memoize, h, h2]
  · cases h : lookupAssoc k st.cache with
    | some v =>
      simp [trait_def_of_item, h]
    | none =>
      have h2 : lookupAssoc k (st.cache ++ [(k, f ())]) = some (f ()) :=
        lookupAssoc_append_self k (f ()) st.cache h
      simp [trait_def_of_item, h, h2]

/-- Witness for C3: a cold first request computes 42, counts one computation
and stores the value. -/
theorem c3_memoized_requests_witness :
    (type_scheme_of_item (⟨[], 0⟩ : MemoState Nat) 3 (fun _ => 42)).1 = 42 ∧
    (type_scheme_of_item (⟨[], 0⟩ : MemoState Nat) 3
        (fun _ => 42)).2.computeCount = 1 ∧
    lookupAssoc 3 (type_scheme_of_item (⟨[], 0⟩ : MemoState Nat) 3
        (fun _ => 42)).2.cache = some 42 :=
  (c3_memoized_requests (⟨[], 0⟩ : MemoState Nat) 3 (fun _ => 42)).1 rfl

/-- Counterexample for C4: a where-clause entry that bounds the parameter but
carries a higher-ranked binder lifetime is skipped by the source, so the
claim's collection has exactly one distinct lifetime (7) yet the computed
default is BaseDefault, not Specific 7. -/
theorem c4_counterexample :
    (claim_collected_lifetimes 0 []
        [WherePredicate.boundPred ⟨[1], some 0, [TyParamBound.regionB 7]⟩]).dedup
      = [7] ∧
    compute_object_lifetime_default 0 []
        [WherePredicate.boundPred ⟨[1], some 0, [TyParamBound.regionB 7]⟩] =
      ObjectLifetimeDefault.BaseDefault ∧
    compute_object_lifetime_default 0 []
        [WherePredicate.boundPred ⟨[1], some 0, [TyParamBound.regionB 7]⟩] ≠
      ObjectLifetimeDefault.Specific 7 := by decide

/-- The collection of the amended claim coincides with the source's internal
collection. -/
theorem amended_eq_internal (param_id : Nat) (pb : List TyParamBound)
    (wps : List WherePredicate) :
    amended_collected_lifetimes param_id pb wps =
      old_from_bounds pb ++ old_from_predicates param_id wps := by
  unfold amended_collected_lifetimes old_from_predicates
  congr 1
  induction wps with
  | nil => rfl
  | cons p ps ih =>
    cases p with
    | boundPred data =>
      simp only [List.flatMap_cons]
      rw [ih]
      congr 1
      simp [List.isEmpty_iff]
    | regionPred lt bs => simp only [List.flatMap_cons]; rw [ih]
    | eqPred => simp only [List.flatMap_cons]; rw [ih]

/-- C4 (amended): the object-lifetime default is determined by the set of
distinct explicit lifetime bounds collected from the inline bounds and from
the where-clause entries that bound that same parameter and carry no
higher-ranked binder lifetimes: zero distinct lifetimes gives the base
default, exactly one gives that specific lifetime, and more than one gives
the ambiguous marker. -/
theorem c4_object_lifetime_default (param_id : Nat)
    (param_bounds : List TyParamBound) (wps : List WherePredicate) :
    ((amended_collected_lifetimes param_id param_bounds wps).dedup = [] →
      compute_object_lifetime_default param_id param_bounds wps =
        ObjectLifetimeDefault.BaseDefault) ∧
    (∀ r, (amended_collected_lifetimes param_id param_bounds wps).dedup = [r] →
      compute_object_lifetime_default param_id param_bounds wps =
        ObjectLifetimeDefault.Specific r) ∧
    (1 < (amended_collected_lifetimes param_id param_bounds wps).dedup.length →
      compute_object_lifetime_default param_id param_bounds wps =
        ObjectLifetimeDefault.Ambiguous) := by
  rw [show (amended_collected_lifetimes param_id param_bounds wps).dedup =
      (old_from_bounds param_bounds ++
        old_from_predicates param_id wps).dedup from by
    rw [amended_eq_internal]]
  refine ⟨?_, ?_, ?_⟩
  · intro h
    simp [compute_object_lifetime_default, h]
  · intro r h
    simp [compute_object_lifetime_default, h]
  · intro h
    simp only [compute_object_lifetime_default]
    rw [if_pos h]

/-- Witness for C4: one lifetime bound gives Specific, none gives
BaseDefault, two distinct ones give Ambiguous. -/
theorem c4_object_lifetime_default_witness :
    compute_object_lifetime_default 0 [TyParamBound.regionB 3] [] =
      ObjectLifetimeDefault.Specific 3 ∧
    compute_object_lifetime_default 0 [] [] =
      ObjectLifetimeDefault.BaseDefault ∧
    compute_object_lifetime_default 0
        [TyParamBound.regionB 3, TyParamBound.regionB 4] [] =
      ObjectLifetimeDefault.Ambiguous := by
  refine ⟨?_, ?_, ?_⟩
  · exact (c4_object_lifetime_default 0 [TyParamBound.regionB 3] []).2.1 3
      (by decide)
  · exact (c4_object_lifetime_default 0 [] []).1 (by decide)
  · exact (c4_object_lifetime_default 0
      [TyParamBound.regionB 3, TyParamBound.regionB 4] []).2.2 (by decide)

/-- Inserting by def id is a permutation of consing. -/
theorem insertByDefId_perm (x : PolyTraitRef) (l : List PolyTraitRef) :
    (insertByDefId x l).Perm (x :: l) := by
  induction l with
  | nil => exact List.Perm.refl _
  | cons y ys ih =>
    simp only [insertByDefId]
    by_cases h : y.def_id < x.def_id
    · rw [if_pos h]
      exact (ih.cons y).trans (List.Perm.swap x y ys)
    · rw [if_neg h]

/-- The sort is a permutation of its input. -/
theorem sortByDefId_perm (l : List PolyTraitRef) : (sortByDefId l).Perm l := by
  induction l with
  | nil => exact List.Perm.refl _
  | cons x xs ih =>
    exact (insertByDefId_perm x (sortByDefId xs)).trans (ih.cons x)

/-- Inserting into a list sorted by def id keeps it sorted. -/
theorem insertByDefId_sorted (x : PolyTraitRef) (l : List PolyTraitRef)
    (h : List.Pairwise (fun a b => a.def_id ≤ b.def_id) l) :
    List.Pairwise (fun a b => a.def_id ≤ b.def_id) (insertByDefId x l) := by
  induction l with
  | nil => simp [insertByDefId]
  | cons y ys ih =>
    rcases List.pairwise_cons.mp h with ⟨hy, hys⟩
    simp only [insertByDefId]
    by_cases hlt : y.def_id < x.def_id
    · rw [if_pos hlt]
      refine List.pairwise_cons.mpr ⟨?_, ih hys⟩
      intro b hb
      have hb2 := (insertByDefId_perm x ys).mem_iff.mp hb
      rcases List.mem_cons.mp hb2 with hbx | hbys
      · subst hbx
        exact Nat.le_of_lt hlt
      · exact hy b hbys
    · rw [if_neg hlt]
      refine List.pairwise_cons.mpr ⟨?_, h⟩
      intro b hb
      rcases List.mem_cons.mp hb with hby | hbys
      · subst hby
        exact Nat.le_of_not_lt hlt
      · exact Nat.le_trans (Nat.le_of_not_lt hlt) (hy b hbys)

/-- The sort output is sorted by def id. -/
theorem sortByDefId_sorted (l : List PolyTraitRef) :
    List.Pairwise (fun a b => a.def_id ≤ b.def_id) (sortByDefId l) := by
  induction l with
  | nil => simp [sortByDefId]
  | cons x xs ih => exact insertByDefId_sorted x (sortByDefId xs) ih

/-- A list sorted weakly by pairwise-distinct keys is sorted strictly. -/
theorem sorted_strict_of_nodup_keys (l : List PolyTraitRef)
    (hs : List.Pairwise (fun a b => a.def_id ≤ b.def_id) l)
    (hn : (l.map PolyTraitRef.def_id).Nodup) :
    List.Pairwise (fun a b => a.def_id < b.def_id) l := by
  have hne : List.Pairwise (fun a b => a.def_id ≠ b.def_id) l :=
    (List.pairwise_map).mp hn
  exact (hs.and hne).imp fun h => Nat.lt_of_le_of_ne h.1 h.2

/-- Counterexample for C5: two bounds naming the same trait declaration with
different substitutions are a permutation of each other, yet the compiled
trait-bound lists differ, because the stable sort keeps the source order of
equal keys. -/
theorem c5_counterexample :
    ([TyParamBound.traitB ⟨5, 0⟩ false, TyParamBound.traitB ⟨5, 1⟩ false].Perm
      [TyParamBound.traitB ⟨5, 1⟩ false, TyParamBound.traitB ⟨5, 0⟩ false]) ∧
    (compute_bounds [TyParamBound.traitB ⟨5, 0⟩ false,
        TyParamBound.traitB ⟨5, 1⟩ false]).trait_bounds ≠
      (compute_bounds [TyParamBound.traitB ⟨5, 1⟩ false,
        TyParamBound.traitB ⟨5, 0⟩ false]).trait_bounds := by
  constructor
  · exact List.Perm.swap _ _ _
  · decide

/-- C5 (amended): the compiled trait bounds are sorted by the bound trait's
declaration id and are the collected bounds up to permutation; when the bound
traits' declaration ids are pairwise distinct, permuted-but-equivalent source
bound orders compile to identical trait-bound lists in identical order. -/
theorem c5_trait_bounds_sorted (l1 l2 : List TyParamBound)
    (hperm : l1.Perm l2)
    (hnodup : ((conv_param_bounds l1).trait_bounds.map
      PolyTraitRef.def_id).Nodup) :
    (compute_bounds l1).trait_bounds = (compute_bounds l2).trait_bounds ∧
    List.Pairwise (fun a b => a.def_id ≤ b.def_id)
      (compute_bounds l1).trait_bounds ∧
    ((compute_bounds l1).trait_bounds).Perm
      (conv_param_bounds l1).trait_bounds := by
  have htb : ((conv_param_bounds l1).trait_bounds).Perm
      ((conv_param_bounds l2).trait_bounds) := hperm.filterMap _
  have hs1 := sortByDefId_sorted (conv_param_bounds l1).trait_bounds
  have hs2 := sortByDefId_sorted (conv_param_bounds l2).trait_bounds
  have hp1 := sortByDefId_perm (conv_param_bounds l1).trait_bounds
  have hp2 := sortByDefId_perm (conv_param_bounds l2).trait_bounds
  have hn1 : ((sortByDefId (conv_param_bounds l1).trait_bounds).map
      PolyTraitRef.def_id).Nodup := ((hp1.map _).nodup_iff).mpr hnodup
  have hn2 : ((sortByDefId (conv_param_bounds l2).trait_bounds).map
      PolyTraitRef.def_id).Nodup := by
    refine ((hp2.map _).nodup_iff).mpr ?_
    exact ((htb.map _).nodup_iff).mp hnodup
  have hstrict1 := sorted_strict_of_nodup_keys _ hs1 hn1
  have hstrict2 := sorted_strict_of_nodup_keys _ hs2 hn2
  have hperm12 : (sortByDefId (conv_param_bounds l1).trait_bounds).Perm
      (sortByDefId (conv_param_bounds l2).trait_bounds) :=
    (hp1.trans htb).trans hp2.symm
  refine ⟨?_, ?_, ?_⟩
  · show sortByDefId (conv_param_bounds l1).trait_bounds =
      sortByDefId (conv_param_bounds l2).trait_bounds
    exact @List.eq_of_perm_of_sorted PolyTraitRef
      (fun a b => a.def_id < b.def_id)
      ⟨fun a b h1 h2 => absurd h2 (Nat.lt_asymm h1)⟩
      _ _ hperm12 hstrict1 hstrict2
  · exact hs1
  · exact hp1

/-- Witness for C5: reversed distinct-trait bound lists compile to the same
sorted trait-bound list. -/
theorem c5_trait_bounds_sorted_witness :
    (compute_bounds [TyParamBound.traitB ⟨9, 0⟩ false,
        TyParamBound.traitB ⟨4, 0⟩ false]).trait_bounds =
      (compute_bounds [TyParamBound.traitB ⟨4, 0⟩ false,
        TyParamBound.traitB ⟨9, 0⟩ false]).trait_bounds :=
  (c5_trait_bounds_sorted
    [TyParamBound.traitB ⟨9, 0⟩ false, TyParamBound.traitB ⟨4, 0⟩ false]
    [TyParamBound.traitB ⟨4, 0⟩ false, TyParamBound.traitB ⟨9, 0⟩ false]
    (List.Perm.swap _ _ _) (by decide)).1

/-- A list of events of one phase is weakly sorted by phase. -/
theorem pairwise_of_const_rank (k : Nat) (l : List ConvEvent)
    (h : ∀ e ∈ l, e.kindRank = k) :
    List.Pairwise (fun a b => ConvEvent.kindRank a ≤ ConvEvent.kindRank b)
      l := by
  induction l with
  | nil => simp
  | cons x xs ih =>
    refine List.pairwise_cons.mpr
      ⟨?_, ih fun e he => h e (List.mem_cons_of_mem x he)⟩
    intro b hb
    rw [h x (List.mem_cons_self x xs), h b (List.mem_cons_of_mem x hb)]

/-- C6: within one trait or impl declaration, the conversion trace is ordered
by phase — every associated constant is converted before any associated type,
and every associated type before any method: the phase ranks along the trace
are nondecreasing, so an event of a strictly later phase always occurs at a
strictly later position. -/
theorem c6_assoc_item_order (items : List AssocItem) :
    (List.Pairwise (fun a b => ConvEvent.kindRank a ≤ ConvEvent.kindRank b)
      (convert_assoc_items items)) ∧
    (∀ (i j : Fin (convert_assoc_items items).length),
      ((convert_assoc_items items).get i).kindRank <
        ((convert_assoc_items items).get j).kindRank → i < j) := by
  have hp : List.Pairwise
      (fun a b => ConvEvent.kindRank a ≤ ConvEvent.kindRank b)
      (convert_assoc_items items) := by
    unfold convert_assoc_items
    have h0 : ∀ e ∈ (items.filterMap fun i =>
        match i with
        | .constItem n => some (ConvEvent.convConst n)
        | _ => none), e.kindRank = 0 := by
      intro e he
      rcases List.mem_filterMap.mp he with ⟨a, _, ha⟩
      cases a <;> simp at ha <;> subst ha <;> rfl
    have h1 : ∀ e ∈ (items.filterMap fun i =>
        match i with
        | .typeItem n => some (ConvEvent.convType n)
        | _ => none), e.kindRank = 1 := by
      intro e he
      rcases List.mem_filterMap.mp he with ⟨a, _, ha⟩
      cases a <;> simp at ha <;> subst ha <;> rfl
    have h2 : ∀ e ∈ (items.filterMap fun i =>
        match i with
        | .methodItem n => some (ConvEvent.convMethod n)
        | _ => none), e.kindRank = 2 := by
      intro e he
      rcases List.mem_filterMap.mp he with ⟨a, _, ha⟩
      cases a <;> simp at ha <;> subst ha <;> rfl
    rw [List.pairwise_append]
    refine ⟨?_, ?_, ?_⟩
    · rw [List.pairwise_append]
      refine ⟨pairwise_of_const_rank 0 _ h0, pairwise_of_const_rank 1 _ h1, ?_⟩
      intro a ha b hb
      rw [h0 a ha, h1 b hb]
      decide
    · exact pairwise_of_const_rank 2 _ h2
    · intro a ha b hb
      rcases List.mem_append.mp ha with ha0 | ha1
      · rw [h0 a ha0, h2 b hb]
        decide
      · rw [h1 a ha1, h2 b hb]
        decide
  refine ⟨hp, ?_⟩
  intro i j hlt
  rcases Nat.lt_trichotomy i.val j.val with h | h | h
  · exact h
  · exfalso
    have hij : i = j := Fin.ext h
    subst hij
    exact Nat.lt_irrefl _ hlt
  · exfalso
    have := (List.pairwise_iff_get.mp hp) j i h
    exact Nat.not_lt.mpr this hlt

/-- Witness for C6: in a trait declaring a method, a type and a constant, the
constant's conversion event precedes the method's. -/
theorem c6_assoc_item_order_witness :
    (⟨0, by decide⟩ : Fin (convert_assoc_items
        [AssocItem.methodItem 0, AssocItem.typeItem 1,
          AssocItem.constItem 2]).length) < ⟨2, by decide⟩ :=
  (c6_assoc_item_order
    [AssocItem.methodItem 0, AssocItem.typeItem 1, AssocItem.constItem 2]).2
    ⟨0, by decide⟩ ⟨2, by decide⟩ (by decide)

/-- Membership in the type-parameter reporting loop: a diagnostic appears
exactly for the enumerated parameters missing from the constrained set. -/
theorem mem_reportUnconstrainedTypes (input : List CtpParameter) (i : Nat)
    (names : List Nat) (dg : CtpDiag) :
    dg ∈ reportUnconstrainedTypes input i names ↔
      ∃ k, ∃ h : k < names.length,
        dg = CtpDiag.unconstrainedType (i + k) (names.get ⟨k, h⟩) ∧
        input.contains (CtpParameter.typeP (i + k)) = false := by
  induction names generalizing i with
  | nil => simp [reportUnconstrainedTypes]
  | cons name rest ih =>
    simp only [reportUnconstrainedTypes, List.mem_append]
    by_cases hc : input.contains (CtpParameter.typeP i)
    · rw [if_pos hc]
      simp only [List.not_mem_nil, false_or, ih]
      constructor
      · rintro ⟨k, hk, hdg, hcf⟩
        refine ⟨k + 1, by simp only [List.length_cons]; omega, ?_, ?_⟩
        · simpa [Nat.add_assoc, Nat.add_comm 1 k] using hdg
        · have he : i + 1 + k = i + (k + 1) := by omega
          rw [← he]
          exact hcf
      · rintro ⟨k, hk, hdg, hcf⟩
        cases k with
        | zero =>
          exfalso
          rw [Nat.add_zero] at hcf
          rw [hc] at hcf
          simp at hcf
        | succ k2 =>
          refine ⟨k2, by simp only [List.length_cons] at hk; omega, ?_, ?_⟩
          · have he : i + 1 + k2 = i + (k2 + 1) := by omega
            rw [he]
            simpa using hdg
          · have he : i + 1 + k2 = i + (k2 + 1) := by omega
            rw [he]
            exact hcf
    · rw [if_neg hc]
      simp only [List.mem_singleton, ih]
      constructor
      · rintro (hdg | ⟨k, hk, hdg, hcf⟩)
        · refine ⟨0, by simp only [List.length_cons]; omega, ?_, ?_⟩
          · simpa using hdg
          · simpa using Bool.of_not_eq_true hc
        · refine ⟨k + 1, by simp only [List.length_cons]; omega, ?_, ?_⟩
          · simpa [Nat.add_assoc, Nat.add_comm 1 k] using hdg
          · have he : i + 1 + k = i + (k + 1) := by omega
            rw [← he]
            exact hcf
      · rintro ⟨k, hk, hdg, hcf⟩
        cases k with
        | zero =>
          left
          simpa using hdg
        | succ k2 =>
          right
          refine ⟨k2, by simp only [List.length_cons] at hk; omega, ?_, ?_⟩
          · have he : i + 1 + k2 = i + (k2 + 1) := by omega
            rw [he]
            simpa using hdg
          · have he : i + 1 + k2 = i + (k2 + 1) := by omega
            rw [he]
            exact hcf

/-- Every diagnostic the type loop emits carries an index at or after the
loop's starting index. -/
theorem reportUnconstrainedTypes_idx_ge (input : List CtpParameter) (i : Nat)
    (names : List Nat) (dg : CtpDiag)
    (hm : dg ∈ reportUnconstrainedTypes input i names) :
    ∃ k name2, dg = CtpDiag.unconstrainedType k name2 ∧ i ≤ k := by
  rcases (mem_reportUnconstrainedTypes input i names dg).mp hm with
    ⟨k, hk, hdg, _⟩
  exact ⟨i + k, _, hdg, Nat.le_add_right i k⟩

/-- The type loop never emits a duplicate diagnostic. -/
theorem reportUnconstrainedTypes_nodup (input : List CtpParameter) (i : Nat)
    (names : List Nat) :
    (reportUnconstrainedTypes input i names).Nodup := by
  induction names generalizing i with
  | nil => simp [reportUnconstrainedTypes]
  | cons name rest ih =>
    simp only [reportUnconstrainedTypes]
    by_cases hc : input.contains (CtpParameter.typeP i)
    · rw [if_pos hc]
      simpa using ih (i + 1)
    · rw [if_neg hc]
      simp only [List.singleton_append, List.nodup_cons]
      refine ⟨?_, ih (i + 1)⟩
      intro hmem
      rcases reportUnconstrainedTypes_idx_ge input (i + 1) rest _ hmem with
        ⟨k, name2, heq, hge⟩
      have hik : i = k := by
        injection heq with h1 h2
      omega

/-- Membership in the lifetime reporting loop: a diagnostic appears exactly
for the enumerated lifetimes that occur in an associated type's value and are
missing from the constrained set. -/
theorem mem_reportUnconstrainedLifetimes (assocLts input : List CtpParameter)
    (i : Nat) (names : List Nat) (dg : CtpDiag) :
    dg ∈ reportUnconstrainedLifetimes assocLts input i names ↔
      ∃ k, ∃ h : k < names.length,
        dg = CtpDiag.unconstrainedLifetime (i + k) (names.get ⟨k, h⟩) ∧
        assocLts.contains (CtpParameter.regionP (i + k)) = true ∧
        input.contains (CtpParameter.regionP (i + k)) = false := by
  induction names generalizing i with
  | nil => simp [reportUnconstrainedLifetimes]
  | cons name rest ih =>
    simp only [reportUnconstrainedLifetimes, List.mem_append]
    by_cases hc : (assocLts.contains (CtpParameter.regionP i) &&
        !(input.contains (CtpParameter.regionP i))) = true
    · rw [if_pos hc]
      rcases Bool.and_eq_true_iff.mp hc with ⟨hc1, hc2⟩
      have hc3 : input.contains (CtpParameter.regionP i) = false := by
        simpa using hc2
      simp only [List.mem_singleton, ih]
      constructor
      · rintro (hdg | ⟨k, hk, hdg, ha, hf⟩)
        · refine ⟨0, by simp only [List.length_cons]; omega, ?_, ?_, ?_⟩
          · simpa using hdg
          · simpa using hc1
          · simpa using hc3
        · refine ⟨k + 1, by simp only [List.length_cons]; omega, ?_, ?_, ?_⟩
          · simpa [Nat.add_assoc, Nat.add_comm 1 k] using hdg
          · have he : i + 1 + k = i + (k + 1) := by omega
            rw [← he]
            exact ha
          · have he : i + 1 + k = i + (k + 1) := by omega
            rw [← he]
            exact hf
      · rintro ⟨k, hk, hdg, ha, hf⟩
        cases k with
        | zero =>
          left
          simpa using hdg
        | succ k2 =>
          right
          refine ⟨k2, by simp only [List.length_cons] at hk; omega,
            ?_, ?_, ?_⟩
          · have he : i + 1 + k2 = i + (k2 + 1) := by omega
            rw [he]
            simpa using hdg
          · have he : i + 1 + k2 = i + (k2 + 1) := by omega
            rw [he]
            exact ha
          · have he : i + 1 + k2 = i + (k2 + 1) := by omega
            rw [he]
            exact hf
    · rw [if_neg hc]
      simp only [List.not_mem_nil, false_or, ih]
      constructor
      · rintro ⟨k, hk, hdg, ha, hf⟩
        refine ⟨k + 1, by simp only [List.length_cons]; omega, ?_, ?_, ?_⟩
        · simpa [Nat.add_assoc, Nat.add_comm 1 k] using hdg
        · have he : i + 1 + k = i + (k + 1) := by omega
          rw [← he]
          exact ha
        · have he : i + 1 + k = i + (k + 1) := by omega
          rw [← he]
          exact hf
      · rintro ⟨k, hk, hdg, ha, hf⟩
        cases k with
        | zero =>
          exfalso
          rw [Nat.add_zero] at ha hf
          apply hc
          rw [ha]
          rw [hf]
          rfl
        | succ k2 =>
          refine ⟨k2, by simp only [List.length_cons] at hk; omega,
            ?_, ?_, ?_⟩
          · have he : i + 1 + k2 = i + (k2 + 1) := by omega
            rw [he]
            simpa using hdg
          · have he : i + 1 + k2 = i + (k2 + 1) := by omega
            rw [he]
            exact ha
          · have he : i + 1 + k2 = i + (k2 + 1) := by omega
            rw [he]
            exact hf

/-- Every diagnostic the lifetime loop emits carries an index at or after the
loop's starting index. -/
theorem reportUnconstrainedLifetimes_idx_ge
    (assocLts input : List CtpParameter) (i : Nat) (names : List Nat)
    (dg : CtpDiag)
    (hm : dg ∈ reportUnconstrainedLifetimes assocLts input i names) :
    ∃ k name2, dg = CtpDiag.unconstrainedLifetime k name2 ∧ i ≤ k := by
  rcases (mem_reportUnconstrainedLifetimes assocLts input i names dg).mp hm
    with ⟨k, hk, hdg, _, _⟩
  exact ⟨i + k, _, hdg, Nat.le_add_right i k⟩

/-- The lifetime loop never emits a duplicate diagnostic. -/
theorem reportUnconstrainedLifetimes_nodup
    (assocLts input : List CtpParameter) (i : Nat) (names : List Nat) :
    (reportUnconstrainedLifetimes assocLts input i names).Nodup := by
  induction names generalizing i with
  | nil => simp [reportUnconstrainedLifetimes]
  | cons name rest ih =>
    simp only [reportUnconstrainedLifetimes]
    by_cases hc : (assocLts.contains (CtpParameter.regionP i) &&
        !(input.contains (CtpParameter.regionP i))) = true
    · rw [if_pos hc]
      simp only [List.singleton_append, List.nodup_cons]
      refine ⟨?_, ih (i + 1)⟩
      intro hmem
      rcases reportUnconstrainedLifetimes_idx_ge assocLts input (i + 1) rest _
        hmem with ⟨k, name2, heq, hge⟩
      have hik : i = k := by injection heq with h1 h2
      omega
    · rw [if_neg hc]
      simpa using ih (i + 1)

/-- C7: an impl's type-parameter check emits a diagnostic exactly for each
declared type parameter missing from the constrained set — the fixed-point
closure over the predicates of the parameters of the self type and the
implemented-trait reference — with no duplicates, so an unconstrained type
parameter gets exactly one diagnostic and a constrained one gets none; a
declared lifetime parameter is reported exactly when it occurs inside some
associated type's resolved value and is not constrained, again with no
duplicates. -/
theorem c7_impl_constrained_params (d : ImplData) :
    (∀ dg, dg ∈ enforce_impl_params_are_constrained d ↔
      ∃ k, ∃ h : k < d.ty_params.length,
        dg = CtpDiag.unconstrainedType k (d.ty_params.get ⟨k, h⟩) ∧
        (constrainedClosure d.implPredicates
          (implInputParameters d)).contains (CtpParameter.typeP k) = false) ∧
    (enforce_impl_params_are_constrained d).Nodup ∧
    (∀ dg, dg ∈ enforce_impl_lifetimes_are_constrained d ↔
      ∃ k, ∃ h : k < d.lifetimes.length,
        dg = CtpDiag.unconstrainedLifetime k (d.lifetimes.get ⟨k, h⟩) ∧
        (lifetimesInAssocTypes d).contains (CtpParameter.regionP k) = true ∧
        (constrainedClosure d.implPredicates
          (implInputParameters d)).contains (CtpParameter.regionP k)
          = false) ∧
    (enforce_impl_lifetimes_are_constrained d).Nodup := by
  refine ⟨?_, ?_, ?_, ?_⟩
  · intro dg
    have h := mem_reportUnconstrainedTypes
      (constrainedClosure d.implPredicates (implInputParameters d)) 0
      d.ty_params dg
    simpa [enforce_impl_params_are_constrained] using h
  · exact reportUnconstrainedTypes_nodup _ 0 _
  · intro dg
    have h := mem_reportUnconstrainedLifetimes (lifetimesInAssocTypes d)
      (constrainedClosure d.implPredicates (implInputParameters d)) 0
      d.lifetimes dg
    simpa [enforce_impl_lifetimes_are_constrained] using h
  · exact reportUnconstrainedLifetimes_nodup _ _ 0 _

/-- Witness for C7: in an impl over parameters T (index 0, constrained by the
self type) and U (index 1, appearing nowhere), U is reported and T is not. -/
theorem c7_impl_constrained_params_witness :
    CtpDiag.unconstrainedType 1 6 ∈ enforce_impl_params_are_constrained
      ⟨⟨[CtpParameter.typeP 0], []⟩, none, [], [5, 6], [], []⟩ ∧
    CtpDiag.unconstrainedType 0 5 ∉ enforce_impl_params_are_constrained
      ⟨⟨[CtpParameter.typeP 0], []⟩, none, [], [5, 6], [], []⟩ := by
  constructor
  · exact ((c7_impl_constrained_params
      ⟨⟨[CtpParameter.typeP 0], []⟩, none, [], [5, 6], [], []⟩).1 _).mpr
      ⟨1, by decide, rfl, by decide⟩
  · intro hmem
    rcases ((c7_impl_constrained_params
      ⟨⟨[CtpParameter.typeP 0], []⟩, none, [], [5, 6], [], []⟩).1 _).mp hmem
      with ⟨k, hk, hdg, hcf⟩
    have hk0 : k = 0 := by
      have h2 := hdg
      injection h2 with ha hb
      omega
    subst hk0
    revert hcf
    decide

/-- Counterexample for C8: a type alias whose parameter carries a trait bound
produces a warning-level E0122 diagnostic — the bound is not disallowed, no
error-level diagnostic is emitted — and the underlying type is still
converted. -/
theorem c8_counterexample :
    (convert_alias_item ⟨[[TyParamBound.traitB ⟨9, 0⟩ false]], 42⟩).1 =
      [⟨Severity.warningSev, 122⟩] ∧
    (convert_alias_item ⟨[[TyParamBound.traitB ⟨9, 0⟩ false]], 42⟩).1 ≠
      [⟨Severity.errorSev, 122⟩] ∧
    (convert_alias_item ⟨[[TyParamBound.traitB ⟨9, 0⟩ false]], 42⟩).2 = 42 := by
  decide

/-- C8 (amended): trait bounds on a type alias's parameters are not enforced
but diagnosed: when any declared parameter carries a trait bound the alias
conversion emits exactly one warning-level E0122 diagnostic, lifetime-only
bounds produce no diagnostic, and the underlying type is converted into the
alias's scheme in either case. -/
theorem c8_alias_bounds (it : TypeAliasItem) :
    ((∃ bs ∈ it.paramBounds, ∃ b ∈ bs, ∃ tr m, b = TyParamBound.traitB tr m) →
      (convert_alias_item it).1 = [⟨Severity.warningSev, 122⟩]) ∧
    ((∀ bs ∈ it.paramBounds, ∀ b ∈ bs, ∀ tr m, b ≠ TyParamBound.traitB tr m) →
      (convert_alias_item it).1 = []) ∧
    (convert_alias_item it).2 = it.underlying := by
  refine ⟨?_, ?_, rfl⟩
  · rintro ⟨bs, hbs, b, hb, tr, m, rfl⟩
    have hwarn : (it.paramBounds.any fun bounds =>
        bounds.any fun b =>
          match b with
          | TyParamBound.traitB _ _ => true
          | TyParamBound.regionB _ => false) = true := by
      rw [List.any_eq_true]
      refine ⟨bs, hbs, ?_⟩
      rw [List.any_eq_true]
      exact ⟨TyParamBound.traitB tr m, hb, rfl⟩
    simp [convert_alias_item, ensure_no_ty_param_bounds, hwarn]
  · intro hno
    have hwarn : (it.paramBounds.any fun bounds =>
        bounds.any fun b =>
          match b with
          | TyParamBound.traitB _ _ => true
          | TyParamBound.regionB _ => false) = false := by
      rw [List.any_eq_false]
      intro bs hbs
      rw [Bool.not_eq_true, List.any_eq_false]
      intro b hb
      cases b with
      | traitB tr m =>
        intro htr
        exact hno bs hbs _ hb tr m rfl
      | regionB lt => simp
    simp [convert_alias_item, ensure_no_ty_param_bounds, hwarn]

/-- Witness for C8: a trait bound yields the single E0122 warning; a lifetime
bound alone yields no diagnostic. -/
theorem c8_alias_bounds_witness :
    (convert_alias_item ⟨[[TyParamBound.traitB ⟨3, 0⟩ false],
        [TyParamBound.regionB 1]], 9⟩).1 = [⟨Severity.warningSev, 122⟩] ∧
    (convert_alias_item ⟨[[TyParamBound.regionB 1]], 9⟩).1 = [] := by
  constructor
  · exact (c8_alias_bounds ⟨[[TyParamBound.traitB ⟨3, 0⟩ false],
      [TyParamBound.regionB 1]], 9⟩).1
      ⟨[TyParamBound.traitB ⟨3, 0⟩ false], by decide,
        TyParamBound.traitB ⟨3, 0⟩ false, by decide, ⟨3, 0⟩, false, rfl⟩
  · refine (c8_alias_bounds ⟨[[TyParamBound.regionB 1]], 9⟩).2.1 ?_
    intro bs hbs b hb tr m
    rw [List.mem_singleton] at hbs
    subst hbs
    rw [List.mem_singleton] at hb
    subst hb
    simp

/-- Counterexample for C9: the predicate write used for methods silently
replaces an existing entry — a second insertion for the same declaration id
overwrites the stored predicate set with no fatal assertion. -/
theorem c9_counterexample :
    insertPredicatesPlain [(7, 1)] 7 2 = [(7, 2)] ∧
    lookupAssoc 7 (insertPredicatesPlain [(7, 1)] 7 2) = some 2 ∧
    lookupAssoc 7 [(7, 1)] = some 1 := by decide

/-- Filtering out a key removes it from lookup. -/
theorem lookupAssoc_filter_ne {β : Type} (k : Nat) (l : List (Nat × β)) :
    lookupAssoc k (l.filter fun e => e.1 != k) = none := by
  induction l with
  | nil => rfl
  | cons e rest ih =>
    by_cases he : e.1 = k
    · simp [List.filter, he, ih]
    · simp only [List.filter_cons]
      rw [if_pos (by simpa using he)]
      simp only [lookupAssoc]
      rw [if_neg he]
      exact ih

/-- Lookup after an append that installs the key finds the new value. -/
theorem lookupAssoc_append {β : Type} (k : Nat) (v : β)
    (l : List (Nat × β)) (h : lookupAssoc k l = none) :
    lookupAssoc k (l ++ [(k, v)]) = some v := by
  induction l with
  | nil => simp [lookupAssoc]
  | cons e rest ih =>
    simp only [lookupAssoc] at h ⊢
    by_cases he : e.1 = k
    · simp [he] at h
    · simp only [he, if_false] at h ⊢
      exact ih h

/-- C9 (amended): the predicate writes of convert_typed_item,
convert_foreign_item and convert_trait_predicates are write-once — a first
insertion succeeds and a second insertion for the same id is a fatal
assertion — while the writes used for methods, fields, associated constants
and variant constructors are plain inserts that replace an existing entry
silently. -/
theorem c9_predicate_cache_writes (m : List (Nat × Nat)) (k v : Nat) :
    (lookupAssoc k m = none →
      insertPredicatesAsserting m k v = some (insertPredicatesPlain m k v)) ∧
    ((∃ w, lookupAssoc k m = some w) →
      insertPredicatesAsserting m k v = none) ∧
    lookupAssoc k (insertPredicatesPlain m k v) = some v := by
  refine ⟨?_, ?_, ?_⟩
  · intro h
    simp [insertPredicatesAsserting, insertPredicatesPlain, predInsert, h]
  · rintro ⟨w, hw⟩
    simp [insertPredicatesAsserting, predInsert, hw]
  · unfold insertPredicatesPlain predInsert
    exact lookupAssoc_append k v _ (lookupAssoc_filter_ne k m)

/-- Witness for C9: a first asserting insert succeeds; a second one for the
same id hits the fatal assertion. -/
theorem c9_predicate_cache_writes_witness :
    insertPredicatesAsserting [] 3 8 = some (insertPredicatesPlain [] 3 8) ∧
    insertPredicatesAsserting [(3, 8)] 3 9 = none := by
  constructor
  · exact (c9_predicate_cache_writes [] 3 8).1 rfl
  · exact (c9_predicate_cache_writes [(3, 8)] 3 9).2.1 ⟨8, rfl⟩

/-- Walking a list of arguments visits exactly the walks of its members. -/
theorem mem_walkArgs (x : LTy) (l : List LTy) :
    x ∈ walkArgs l ↔ ∃ t ∈ l, x ∈ t.walk := by
  induction l with
  | nil => simp [walkArgs]
  | cons t ts ih => simp [walkArgs, ih, List.mem_append]

/-- Every type occurs in its own walk. -/
theorem walk_self (t : LTy) : t ∈ t.walk := by
  cases t <;> simp [LTy.walk]

/-- A structural forward reference puts the offending parameter into the
walk. -/
theorem mentions_to_walk (space index : Nat) (t : LTy)
    (h : MentionsForward space index t) :
    ∃ i, LTy.tyParam space i ∈ t.walk ∧ index ≤ i := by
  induction h with
  | here i hi => exact ⟨i, walk_self _, hi⟩
  | inArg hd args u hu hm ih =>
    rcases ih with ⟨i, hiw, hile⟩
    refine ⟨i, ?_, hile⟩
    simp only [LTy.walk, List.mem_cons]
    right
    exact (mem_walkArgs _ args).mpr ⟨u, hu, hiw⟩

/-- An offending parameter in the walk comes from a structural forward
reference; proved by strong induction on the size of the type. -/
theorem walk_to_mentions (space index : Nat) :
    ∀ (n : Nat) (t : LTy), sizeOf t ≤ n →
      ∀ i, LTy.tyParam space i ∈ t.walk → index ≤ i →
        MentionsForward space index t := by
  intro n
  induction n with
  | zero =>
    intro t ht
    exfalso
    cases t <;> simp_all
  | succ n ih =>
    intro t ht i hw hle
    cases t with
    | tyParam s j =>
      simp only [LTy.walk, List.mem_singleton] at hw
      injection hw with h1 h2
      subst h1
      subst h2
      exact MentionsForward.here i hle
    | errTy => simp [LTy.walk] at hw
    | base m => simp [LTy.walk] at hw
    | app hd args =>
      simp only [LTy.walk, List.mem_cons] at hw
      rcases hw with hw | hw
      · exact absurd hw (by simp)
      · rcases (mem_walkArgs _ args).mp hw with ⟨u, hu, huw⟩
        have h1 : sizeOf u < sizeOf args := List.sizeOf_lt_of_mem hu
        have hun : sizeOf u ≤ n := by
          simp only [LTy.app.sizeOf_spec] at ht
          omega
        exact MentionsForward.inArg hd args u hu (ih u hun i huw hle)

/-- C10: when a declared default type mentions a type parameter of the same
space with index at or after the defaulted parameter's own index — a forward
or self reference — conversion reports the E0128 diagnostic and the error
placeholder type is recorded as the parameter's default; otherwise the
converted written type is recorded with no diagnostic. -/
theorem c10_default_type_parameter (ty : LTy) (space index : Nat) :
    (MentionsForward space index ty →
      convert_default_type_parameter ty space index =
        (LTy.errTy, [⟨Severity.errorSev, 128⟩]) ∧
      type_param_default (some ty) space index = some LTy.errTy) ∧
    (¬ MentionsForward space index ty →
      convert_default_type_parameter ty space index = (ty, []) ∧
      type_param_default (some ty) space index = some ty) := by
  constructor
  · intro h
    rcases mentions_to_walk space index ty h with ⟨i, hiw, hile⟩
    have hfind : ty.walk.find? (fun l =>
        match l with
        | LTy.tyParam s i => s == space && decide (index ≤ i)
        | _ => false) ≠ none := by
      intro hnone
      rw [List.find?_eq_none] at hnone
      have h3 := hnone _ hiw
      simp [hile] at h3
    cases hf : ty.walk.find? (fun l =>
        match l with
        | LTy.tyParam s i => s == space && decide (index ≤ i)
        | _ => false) with
    | none => exact absurd hf hfind
    | some x =>
      constructor
      · simp [convert_default_type_parameter, hf]
      · simp [type_param_default, convert_default_type_parameter, hf]
  · intro h
    have hfind : ty.walk.find? (fun l =>
        match l with
        | LTy.tyParam s i => s == space && decide (index ≤ i)
        | _ => false) = none := by
      rw [List.find?_eq_none]
      intro x hx
      cases x with
      | tyParam s j =>
        simp only [Bool.and_eq_true, beq_iff_eq, decide_eq_true_eq]
        rintro ⟨rfl, hle⟩
        exact h (walk_to_mentions s index (sizeOf ty) ty (Nat.le_refl _)
          j hx hle)
      | errTy => simp
      | base m => simp
      | app hd args => simp
    constructor
    · simp [convert_default_type_parameter, hfind]
    · simp [type_param_default, convert_default_type_parameter, hfind]

/-- Witness for C10: a default mentioning a forward parameter converts to the
error type with the diagnostic; a default mentioning only earlier parameters
converts to itself. -/
theorem c10_default_type_parameter_witness :
    (convert_default_type_parameter (LTy.app 0 [LTy.tyParam 0 2]) 0 1 =
      (LTy.errTy, [⟨Severity.errorSev, 128⟩])) ∧
    (convert_default_type_parameter (LTy.app 0 [LTy.tyParam 0 0]) 0 1 =
      (LTy.app 0 [LTy.tyParam 0 0], [])) := by
  constructor
  · exact ((c10_default_type_parameter (LTy.app 0 [LTy.tyParam 0 2]) 0 1).1
      (MentionsForward.inArg 0 _ _ (by simp)
        (MentionsForward.here 2 (by omega)))).1
  · refine ((c10_default_type_parameter (LTy.app 0 [LTy.tyParam 0 0]) 0 1).2
      ?_).1
    intro hm
    cases hm with
    | inArg hd args t hmem hm2 =>
      rw [List.mem_singleton] at hmem
      subst hmem
      cases hm2 with
      | here i hi => omega

end Collect
